import Mathlib

/-!
Verification of the Bollinger-breakout scanner (`src/app.py`).

The pipeline is shallowly embedded as follows.

* A fetched table (`yf.download` result) is a `RawTable`: a column-structure
  tag (flat vs. per-ticker nested multi-level columns) plus a list of `Bar`
  rows.  Each OHLCV field is `Option ℝ`; `none` models a NaN / missing cell.
* `fetch_data` is modelled as an oracle `String → Option RawTable`; `none`
  models an empty download (the source returns `None` for an empty frame).
* `dropna` models `data.dropna()` (line 68): it keeps exactly the rows with
  no missing cell in any column.
* `maAt`/`stdAt`/`upperAt`/`lowerAt` model the rolling columns of lines 70-73
  at one positional index: pandas `rolling(n).mean()` / `rolling(n).std()`
  yield a value exactly when the trailing window `[i-n+1, i]` holds `n`
  observations (and, for `std`, which uses `ddof = 1`, when `n ≥ 2`);
  otherwise the cell is NaN, modelled as `none`.
* `pyGt`/`pyLt` model Python float comparison where a NaN operand makes the
  comparison `False`; `signalOf` is the decision of lines 83-88.
* `analyze_stock` models lines 63-98.  `data.iloc[-2]` (line 76) raises
  `IndexError` when fewer than 2 rows remain, modelled as `Except.error`.
* `runScan` models the module-level scan loop (lines 103-109), which has no
  exception handler: a raised error propagates and aborts the loop.
* `bullishOf`/`bearishOf` model the partition of lines 111-112 (substring
  test on the stored signal string).
-/

/-- One row of the fetched OHLCV table.  A `none` field models a NaN cell. -/
structure Bar where
  date : Nat
  openP : Option ℝ
  high : Option ℝ
  low : Option ℝ
  close : Option ℝ
  volume : Option ℝ

/-- Column structure of the fetched table: single-level, or nested
per-ticker multi-level columns as the data source may return. -/
inductive Cols where
  | flat : Cols
  | multi : String → Cols
deriving DecidableEq

/-- A raw fetched table: column structure plus rows. -/
structure RawTable where
  cols : Cols
  rows : List Bar

/-- `data.dropna()` (line 68): keep exactly the rows with no missing cell. -/
def dropna (rows : List Bar) : List Bar :=
  rows.filter (fun b =>
    b.openP.isSome && b.high.isSome && b.low.isSome && b.close.isSome && b.volume.isSome)

/-- The dataframe as prepared by line 68, the one band computation and the
reference-candle access operate on.  The source applies no transformation to
the column structure: only rows are changed. -/
def preparedTable (t : RawTable) : RawTable :=
  { cols := t.cols, rows := dropna t.rows }

/-- The `Close` column of a (dropna-cleaned) list of rows. -/
def closesOf (rows : List Bar) : List ℝ :=
  rows.filterMap (fun b => b.close)

/-- Arithmetic mean, as `pandas` rolling mean computes it on a full window. -/
noncomputable def mean (xs : List ℝ) : ℝ :=
  xs.sum / (xs.length : ℝ)

/-- Sample standard deviation with denominator `length - 1` (`ddof = 1`,
the `pandas` `rolling(..).std()` default). -/
noncomputable def sampleStd (xs : List ℝ) : ℝ :=
  Real.sqrt ((xs.map (fun x => (x - mean xs) ^ 2)).sum / ((xs.length : ℝ) - 1))

/-- `data["Close"].rolling(n).mean()` (line 70) at positional index `i`:
defined exactly when the trailing window `[i-n+1, i]` holds `n` rows. -/
noncomputable def maAt (cs : List ℝ) (n i : Nat) : Option ℝ :=
  if n ≤ i + 1 ∧ i < cs.length then
    some (mean ((cs.drop (i + 1 - n)).take n))
  else none

/-- `data["Close"].rolling(n).std()` (line 71) at positional index `i`:
defined on the same full windows, except that with `ddof = 1` a window of a
single observation is NaN, hence the `2 ≤ n` condition. -/
noncomputable def stdAt (cs : List ℝ) (n i : Nat) : Option ℝ :=
  if n ≤ i + 1 ∧ i < cs.length ∧ 2 ≤ n then
    some (sampleStd ((cs.drop (i + 1 - n)).take n))
  else none

/-- `data["Upper"] = data["MA"] + bb_std * data["STD"]` (line 72) at index
`i`; NaN operands propagate. -/
noncomputable def upperAt (cs : List ℝ) (n : Nat) (k : ℝ) (i : Nat) : Option ℝ :=
  match maAt cs n i, stdAt cs n i with
  | some m, some s => some (m + k * s)
  | _, _ => none

/-- `data["Lower"] = data["MA"] - bb_std * data["STD"]` (line 73) at index
`i`; NaN operands propagate. -/
noncomputable def lowerAt (cs : List ℝ) (n : Nat) (k : ℝ) (i : Nat) : Option ℝ :=
  match maAt cs n i, stdAt cs n i with
  | some m, some s => some (m - k * s)
  | _, _ => none

/-- Python `a > b` on floats where either operand may be NaN (`none`):
a NaN operand makes the comparison `False`. -/
noncomputable def pyGt (a b : Option ℝ) : Bool :=
  match a, b with
  | some x, some y => decide (y < x)
  | _, _ => false

/-- Python `a < b` on floats where either operand may be NaN (`none`). -/
noncomputable def pyLt (a b : Option ℝ) : Bool :=
  match a, b with
  | some x, some y => decide (x < y)
  | _, _ => false

/-- The bullish signal string of line 84. -/
def bullSignal : String := "🟢 Breakout Rialzista"

/-- The bearish signal string of line 86. -/
def bearSignal : String := "🔴 Breakout Ribassista"

/-- The decision of lines 83-88: `if close > upper: ... elif close < lower:
... else: return None`, in that order, on possibly-NaN values. -/
noncomputable def signalOf (close upper lower : Option ℝ) : Option String :=
  if pyGt close upper then some bullSignal
  else if pyLt close lower then some bearSignal
  else none

/-- The result dictionary built at lines 90-98. -/
structure ScanResult where
  Symbol : String
  Segnale : String
  Close : Option ℝ
  Upper : Option ℝ
  Lower : Option ℝ
  Data : Nat
  DataFrame : List Bar

/-- The message of the uncaught Python `IndexError` raised by
`data.iloc[-2]` on a frame with fewer than two rows. -/
def indexErrorMsg : String := "IndexError"

/-- `analyze_stock` (lines 63-98).  `fetched` is the `fetch_data(symbol)`
result.  The length guard of line 65 inspects the raw (pre-`dropna`) frame;
`data.iloc[-2]` at line 76 is modelled by an explicit bounds check whose
failure is the uncaught `IndexError`. -/
noncomputable def analyze_stock (symbol : String) (bb_period : Nat) (bb_std : ℝ)
    (fetched : Option RawTable) : Except String (Option ScanResult) :=
  match fetched with
  | none => Except.ok none
  | some data =>
    if data.rows.length < bb_period + 2 then Except.ok none
    else if (preparedTable data).rows.length < 2 then Except.error indexErrorMsg
    else
      match (preparedTable data).rows.get? ((preparedTable data).rows.length - 2) with
      | none => Except.error indexErrorMsg
      | some candle =>
        match signalOf candle.close
            (upperAt (closesOf (preparedTable data).rows) bb_period bb_std
              ((preparedTable data).rows.length - 2))
            (lowerAt (closesOf (preparedTable data).rows) bb_period bb_std
              ((preparedTable data).rows.length - 2)) with
        | none => Except.ok none
        | some sig =>
          Except.ok (some
            { Symbol := symbol, Segnale := sig, Close := candle.close,
              Upper := upperAt (closesOf (preparedTable data).rows) bb_period bb_std
                ((preparedTable data).rows.length - 2),
              Lower := lowerAt (closesOf (preparedTable data).rows) bb_period bb_std
                ((preparedTable data).rows.length - 2),
              Data := candle.date, DataFrame := (preparedTable data).rows })

/-- The module-level scan loop (lines 103-109): sequential, accumulating
the non-`None` results in input order, with no exception handler, so an
error raised for one symbol aborts the whole loop. -/
noncomputable def runScan (symbols : List String) (fetch : String → Option RawTable)
    (p : Nat) (k : ℝ) : Except String (List ScanResult) :=
  match symbols with
  | [] => Except.ok []
  | s :: rest =>
    match analyze_stock s p k (fetch s) with
    | Except.error e => Except.error e
    | Except.ok none => runScan rest fetch p k
    | Except.ok (some r) => (runScan rest fetch p k).map (fun rs => r :: rs)

/-- Python substring membership `pat in s`, via `splitOn`: the pattern
occurs in `s` iff splitting on it yields more than one piece. -/
def containsSub (s pat : String) : Bool :=
  (s.splitOn pat).length != 1

/-- The substring tested by line 111. -/
def rialzista : String := "Rialzista"

/-- The substring tested by line 112. -/
def ribassista : String := "Ribassista"

/-- `bullish = [r for r in results if "Rialzista" in r["Segnale"]]` (line 111). -/
def bullishOf (results : List ScanResult) : List ScanResult :=
  results.filter (fun r => containsSub r.Segnale rialzista)

/-- `bearish = [r for r in results if "Ribassista" in r["Segnale"]]` (line 112). -/
def bearishOf (results : List ScanResult) : List ScanResult :=
  results.filter (fun r => containsSub r.Segnale ribassista)

/-- Modelled from the spec: the SeriesNormalizer step "must flatten any
multi-level column structure returned by the data source ... to a single
level keyed by field name ..., selecting the first level's field names".
This refinement definition follows the spec's words; `src/app.py` contains
no corresponding code, and the counterexample below compares the two. -/
def flattenColumns (t : RawTable) : RawTable :=
  { cols := Cols.flat, rows := t.rows }

/-! Concrete inputs used by witnesses and counterexamples. -/

/-- A fully populated row. -/
def okBar (t : Nat) : Bar :=
  { date := t, openP := some 1, high := some 1, low := some 1, close := some 1, volume := some 1 }

/-- A row whose every cell is missing (all NaN). -/
def missingBar (t : Nat) : Bar :=
  { date := t, openP := none, high := none, low := none, close := none, volume := none }

/-- Twelve complete rows: enough history for `bb_period = 10`. -/
def goodRows : List Bar := (List.range 12).map okBar

/-- Eleven complete rows: exactly `bb_period + 1` for `bb_period = 10`. -/
def shortRows : List Bar := (List.range 11).map okBar

/-- Twelve rows, every one with missing cells: passes the raw length guard
for `bb_period = 10` yet empties out under `dropna`. -/
def nanRows : List Bar := (List.range 12).map missingBar

/-- Twelve raw rows of which five have missing cells: seven survive
`dropna`, so the reference index 5 has no full 10-bar window. -/
def mixedRows : List Bar :=
  [okBar 0, missingBar 1, okBar 2, missingBar 3, okBar 4, missingBar 5,
   okBar 6, missingBar 7, okBar 8, missingBar 9, okBar 10, okBar 11]

/-- A flat-columned table with enough clean history. -/
def goodTable : RawTable := { cols := Cols.flat, rows := goodRows }

/-- A flat-columned table one row short of the required history. -/
def shortTable : RawTable := { cols := Cols.flat, rows := shortRows }

/-- A table that passes the raw length guard but loses every row to `dropna`. -/
def nanTable : RawTable := { cols := Cols.flat, rows := nanRows }

/-- A table with NaN rows interleaved so the reference candle's bands are NaN. -/
def mixedTable : RawTable := { cols := Cols.flat, rows := mixedRows }

/-- A ticker symbol for the nested-column table. -/
def tickerAAPL : String := "AAPL"

/-- A table whose columns are nested per-ticker (multi-level). -/
def multiTable : RawTable := { cols := Cols.multi tickerAAPL, rows := goodRows }

/-- First scan symbol. -/
def symA : String := "A"

/-- Second scan symbol. -/
def symB : String := "B"

/-- A fetch oracle: symbol `A` gets the all-NaN table, anything else the
clean table. -/
def fetchAB (s : String) : Option RawTable :=
  if s = symA then some nanTable else some goodTable

/-- A fetch oracle on which every download comes back empty. -/
def fetchNone (_ : String) : Option RawTable := none

/-- A two-element close series for boundary witnesses. -/
noncomputable def csW : List ℝ := [1, 1]

/-- The trailing window of `csW` at index 1 with period 2. -/
noncomputable def wW : List ℝ := (csW.drop 0).take 2

/-- The upper band of `csW` at index 1 (period 2, multiplier 2). -/
noncomputable def uW : ℝ := mean wW + 2 * sampleStd wW

/-- The lower band of `csW` at index 1 (period 2, multiplier 2). -/
noncomputable def lW : ℝ := mean wW - 2 * sampleStd wW

/-- A three-element close series for the band-formula witness. -/
noncomputable def csC6 : List ℝ := [1, 2, 3]

/-! Helper lemmas. -/

/-- On a table that passes the raw length guard and keeps at least two rows
after `dropna`, `analyze_stock` evaluates the decision rule at the
second-to-last cleaned row and builds the result from that row. -/
lemma analyze_stock_unfold (symbol : String) (p : Nat) (k : ℝ) (t : RawTable)
    (hlen : ¬ t.rows.length < p + 2) (h2 : 2 ≤ (dropna t.rows).length) :
    ∃ candle : Bar, (dropna t.rows).get? ((dropna t.rows).length - 2) = some candle ∧
      analyze_stock symbol p k (some t) = Except.ok
        ((signalOf candle.close
            (upperAt (closesOf (dropna t.rows)) p k ((dropna t.rows).length - 2))
            (lowerAt (closesOf (dropna t.rows)) p k ((dropna t.rows).length - 2))).map
          (fun sig =>
            { Symbol := symbol, Segnale := sig, Close := candle.close,
              Upper := upperAt (closesOf (dropna t.rows)) p k ((dropna t.rows).length - 2),
              Lower := lowerAt (closesOf (dropna t.rows)) p k ((dropna t.rows).length - 2),
              Data := candle.date, DataFrame := dropna t.rows })) := by
  have hnot : ¬ (dropna t.rows).length < 2 := by omega
  have hbound : (dropna t.rows).length - 2 < (dropna t.rows).length := by omega
  refine ⟨(dropna t.rows).get ⟨(dropna t.rows).length - 2, hbound⟩, List.get?_eq_get hbound, ?_⟩
  show analyze_stock symbol p k (some t) = _
  unfold analyze_stock
  simp only [preparedTable]
  rw [if_neg hlen, if_neg hnot, List.get?_eq_get hbound]
  cases hsig : signalOf ((dropna t.rows).get ⟨(dropna t.rows).length - 2, hbound⟩).close
      (upperAt (closesOf (dropna t.rows)) p k ((dropna t.rows).length - 2))
      (lowerAt (closesOf (dropna t.rows)) p k ((dropna t.rows).length - 2)) with
  | none =>
    simp only [List.get_eq_getElem] at hsig
    simp [hsig]
  | some sig =>
    simp only [List.get_eq_getElem] at hsig
    simp [hsig]

/-- A value produced by the rolling standard deviation is nonnegative. -/
lemma stdAt_nonneg (cs : List ℝ) (n i : Nat) (s : ℝ) (h : stdAt cs n i = some s) : 0 ≤ s := by
  unfold stdAt at h
  split_ifs at h
  have hs := Option.some.inj h
  subst hs
  exact Real.sqrt_nonneg _

/-- A defined upper band decomposes as moving average plus multiplier times
standard deviation. -/
lemma upperAt_some_elim (cs : List ℝ) (n : Nat) (k : ℝ) (i : Nat) (u : ℝ)
    (h : upperAt cs n k i = some u) :
    ∃ m s, maAt cs n i = some m ∧ stdAt cs n i = some s ∧ u = m + k * s := by
  unfold upperAt at h
  cases hma : maAt cs n i with
  | none => simp [hma] at h
  | some m =>
    cases hsd : stdAt cs n i with
    | none => simp [hma, hsd] at h
    | some s =>
      simp only [hma, hsd] at h
      exact ⟨m, s, rfl, rfl, (Option.some.inj h).symm⟩

/-- A defined lower band decomposes as moving average minus multiplier times
standard deviation. -/
lemma lowerAt_some_elim (cs : List ℝ) (n : Nat) (k : ℝ) (i : Nat) (l : ℝ)
    (h : lowerAt cs n k i = some l) :
    ∃ m s, maAt cs n i = some m ∧ stdAt cs n i = some s ∧ l = m - k * s := by
  unfold lowerAt at h
  cases hma : maAt cs n i with
  | none => simp [hma] at h
  | some m =>
    cases hsd : stdAt cs n i with
    | none => simp [hma, hsd] at h
    | some s =>
      simp only [hma, hsd] at h
      exact ⟨m, s, rfl, rfl, (Option.some.inj h).symm⟩

/-- A mapped trailing window sums to the corresponding index-wise sum. -/
lemma window_map_sum (cs : List ℝ) (f : ℝ → ℝ) (a m : Nat) (h : a + m ≤ cs.length) :
    (((cs.drop a).take m).map f).sum =
      Finset.sum (Finset.range m) (fun j => f (cs.getD (a + j) 0)) := by
  have hlen : ((cs.drop a).take m).length = m := by
    simp only [List.length_take, List.length_drop]
    omega
  have hlist : ((cs.drop a).take m).map f =
      List.ofFn (fun j : Fin m => f (cs.getD (a + j.val) 0)) := by
    apply List.ext_getElem
    · simp only [List.length_map, List.length_ofFn, hlen]
    · intro idx h1 h2
      have hidx : idx < m := by
        simp only [List.length_map, hlen] at h1
        exact h1
      have hai : a + idx < cs.length := by omega
      simp [List.getElem_map, List.getElem_take, List.getElem_drop, List.getElem_ofFn,
        List.getD_eq_getElem?_getD, List.getElem?_eq_getElem hai]
  rw [hlist, List.sum_ofFn]
  exact Fin.sum_univ_eq_sum_range (fun j => f (cs.getD (a + j) 0)) m

/-- The trailing window's plain sum as an index-wise sum. -/
lemma window_sum (cs : List ℝ) (a m : Nat) (h : a + m ≤ cs.length) :
    ((cs.drop a).take m).sum = Finset.sum (Finset.range m) (fun j => cs.getD (a + j) 0) := by
  have hw := window_map_sum cs (fun x => x) a m h
  simpa using hw

/-- The two band columns never differ in definedness: they are built from
the same rolling mean and rolling standard deviation cells. -/
lemma upperAt_none_iff (cs : List ℝ) (n : Nat) (k : ℝ) (i : Nat) :
    upperAt cs n k i = none ↔ lowerAt cs n k i = none := by
  cases hma : maAt cs n i <;> cases hsd : stdAt cs n i <;> simp [upperAt, lowerAt, hma, hsd]

/-- A NaN left operand makes Python `>` false. -/
lemma pyGt_none_left (b : Option ℝ) : pyGt none b = false := by cases b <;> rfl

/-- A NaN left operand makes Python `<` false. -/
lemma pyLt_none_left (b : Option ℝ) : pyLt none b = false := by cases b <;> rfl

/-- A NaN right operand makes Python `>` false. -/
lemma pyGt_none_right (a : Option ℝ) : pyGt a none = false := by cases a <;> rfl

/-- A NaN right operand makes Python `<` false. -/
lemma pyLt_none_right (a : Option ℝ) : pyLt a none = false := by cases a <;> rfl

/-- A NaN close yields no signal. -/
lemma signalOf_close_none (u l : Option ℝ) : signalOf none u l = none := by
  simp [signalOf, pyGt_none_left, pyLt_none_left]

/-- NaN bands yield no signal. -/
lemma signalOf_bands_none (c : Option ℝ) : signalOf c none none = none := by
  simp [signalOf, pyGt_none_right, pyLt_none_right]

/-- On fully defined floats the decision of lines 83-88 is a two-way
strict-inequality test, upper band first. -/
lemma signalOf_eval (c u l : ℝ) :
    signalOf (some c) (some u) (some l) =
      if u < c then some bullSignal else if c < l then some bearSignal else none := by
  unfold signalOf pyGt pyLt
  by_cases h1 : u < c <;> by_cases h2 : c < l <;> simp [h1, h2]

/-! Theorems for the claims. -/

/-- C3: a fetched series shorter than `period + 2` rows (in particular one
of exactly `period + 1` rows) yields no signal and raises no error,
whatever the prices are. -/
theorem short_series_no_signal (symbol : String) (p : Nat) (k : ℝ) (t : RawTable)
    (h : t.rows.length < p + 2) :
    analyze_stock symbol p k (some t) = Except.ok none := by
  simp [analyze_stock, h]

/-- C3 witness: eleven bars with `period = 10` (exactly `period + 1`)
produce no signal and no error. -/
theorem short_series_no_signal_witness :
    shortTable.rows.length < 10 + 2 ∧
      analyze_stock symA 10 2 (some shortTable) = Except.ok none :=
  ⟨by decide, short_series_no_signal symA 10 2 shortTable (by decide)⟩

/-- C10: the `period + 2` length guard inspects the raw series before
`dropna`; a 12-row series (for `period = 10`) whose rows all contain
missing values passes the guard, empties out under `dropna`, and the
unguarded `iloc[-2]` access then fails with an IndexError. -/
theorem length_guard_before_dropna :
    (¬ nanTable.rows.length < 10 + 2) ∧ (dropna nanTable.rows).length = 0 ∧
      analyze_stock symA 10 2 (some nanTable) = Except.error indexErrorMsg :=
  ⟨by decide, by decide, rfl⟩

/-- C1: whenever the raw series passes the length guard and the cleaned
series still has at least two rows, the whole decision is evaluated at the
reference candle — the second-to-last row of the cleaned series — and the
result's close, band values and date all come from that row; no other row
(in particular not the last one) enters the decision or the result. -/
theorem reference_candle_decision (symbol : String) (p : Nat) (k : ℝ) (t : RawTable)
    (hlen : ¬ t.rows.length < p + 2) (h2 : 2 ≤ (dropna t.rows).length) :
    ∃ candle : Bar, (dropna t.rows).get? ((dropna t.rows).length - 2) = some candle ∧
      analyze_stock symbol p k (some t) = Except.ok
        ((signalOf candle.close
            (upperAt (closesOf (dropna t.rows)) p k ((dropna t.rows).length - 2))
            (lowerAt (closesOf (dropna t.rows)) p k ((dropna t.rows).length - 2))).map
          (fun sig =>
            { Symbol := symbol, Segnale := sig, Close := candle.close,
              Upper := upperAt (closesOf (dropna t.rows)) p k ((dropna t.rows).length - 2),
              Lower := lowerAt (closesOf (dropna t.rows)) p k ((dropna t.rows).length - 2),
              Data := candle.date, DataFrame := dropna t.rows })) :=
  analyze_stock_unfold symbol p k t hlen h2

/-- C1 witness: the reference-candle evaluation at the concrete clean
12-row table with `period = 10`. -/
theorem reference_candle_decision_witness :
    (¬ goodTable.rows.length < 10 + 2) ∧ 2 ≤ (dropna goodTable.rows).length ∧
      (∃ candle : Bar,
        (dropna goodTable.rows).get? ((dropna goodTable.rows).length - 2) = some candle ∧
        analyze_stock symA 10 2 (some goodTable) = Except.ok
          ((signalOf candle.close
              (upperAt (closesOf (dropna goodTable.rows)) 10 2 ((dropna goodTable.rows).length - 2))
              (lowerAt (closesOf (dropna goodTable.rows)) 10 2 ((dropna goodTable.rows).length - 2))).map
            (fun sig =>
              { Symbol := symA, Segnale := sig, Close := candle.close,
                Upper := upperAt (closesOf (dropna goodTable.rows)) 10 2 ((dropna goodTable.rows).length - 2),
                Lower := lowerAt (closesOf (dropna goodTable.rows)) 10 2 ((dropna goodTable.rows).length - 2),
                Data := candle.date, DataFrame := dropna goodTable.rows }))) :=
  ⟨by decide, by decide, reference_candle_decision symA 10 2 goodTable (by decide) (by decide)⟩

/-- C4 counterexample: with two symbols, where the first fetch returns a
12-row table whose rows all have missing values (`period = 10`), the scan
loop does not downgrade the failure to "no result" — the unguarded
reference-candle access raises and the whole run aborts, so the second
symbol is never processed and no signal list is produced. -/
theorem scan_abort_counterexample :
    fetchAB symA = some nanTable ∧
      runScan [symA, symB] fetchAB 10 2 = Except.error indexErrorMsg :=
  ⟨rfl, rfl⟩

/-- C4 amended: a fetch failure (provider returned no data) for one symbol
is downgraded to no result and the scan continues with the remaining
symbols exactly as if the symbol were absent. -/
theorem fetch_failure_isolated (s : String) (rest : List String)
    (fetch : String → Option RawTable) (p : Nat) (k : ℝ) (h : fetch s = none) :
    runScan (s :: rest) fetch p k = runScan rest fetch p k := by
  simp [runScan, h, analyze_stock]

/-- C4 amended witness: a failed fetch for the first of two symbols leaves
the scan of the remaining symbol untouched. -/
theorem fetch_failure_isolated_witness :
    fetchNone symA = none ∧
      runScan [symA, symB] fetchNone 10 2 = runScan [symB] fetchNone 10 2 :=
  ⟨rfl, fetch_failure_isolated symA [symB] fetchNone 10 2 rfl⟩

/-- C5 counterexample: the table the pipeline prepares for band computation
from a nested (multi-level) fetched table still has multi-level columns;
it is not the flattened table the spec describes, so no flattening step
exists in the pipeline. -/
theorem no_flattening_counterexample :
    (preparedTable multiTable).cols = Cols.multi tickerAAPL ∧
      (flattenColumns multiTable).cols = Cols.flat ∧
      (preparedTable multiTable).cols ≠ (flattenColumns multiTable).cols :=
  ⟨rfl, rfl, by decide⟩

/-- C5 amended: the pipeline applies no column flattening at all — the
column structure of every fetched table is passed through unchanged into
the band-computation stage (only rows with missing values are dropped). -/
theorem no_flattening_amended (t : RawTable) : (preparedTable t).cols = t.cols := rfl

/-- C2: with the pipeline's band values defined at an index and a
nonnegative multiplier (the UI clamps it to `[1, 3]`), the decision is
Bullish exactly when the close strictly exceeds the upper band (tested
first), Bearish exactly when the close is strictly below the lower band
(tested second), and a close equal to either band yields no signal. -/
theorem strict_inequality_rule (cs : List ℝ) (n i : Nat) (k : ℝ) (hk : 0 ≤ k)
    (c u l : ℝ) (hu : upperAt cs n k i = some u) (hl : lowerAt cs n k i = some l) :
    (signalOf (some c) (upperAt cs n k i) (lowerAt cs n k i) = some bullSignal ↔ u < c) ∧
    (signalOf (some c) (upperAt cs n k i) (lowerAt cs n k i) = some bearSignal ↔ c < l) ∧
    (c = u → signalOf (some c) (upperAt cs n k i) (lowerAt cs n k i) = none) ∧
    (c = l → signalOf (some c) (upperAt cs n k i) (lowerAt cs n k i) = none) := by
  have hne : bearSignal ≠ bullSignal := by decide
  have hne' : bullSignal ≠ bearSignal := by decide
  obtain ⟨m, s, hma, hsd, hue⟩ := upperAt_some_elim cs n k i u hu
  obtain ⟨m2, s2, hma2, hsd2, hle⟩ := lowerAt_some_elim cs n k i l hl
  rw [hma] at hma2
  rw [hsd] at hsd2
  obtain rfl : m = m2 := Option.some.inj hma2
  obtain rfl : s = s2 := Option.some.inj hsd2
  have hs0 : 0 ≤ s := stdAt_nonneg cs n i s hsd
  have hlu : l ≤ u := by
    rw [hue, hle]
    nlinarith
  rw [hu, hl, signalOf_eval]
  refine ⟨?_, ?_, ?_, ?_⟩
  · split_ifs with h1 h2
    · simp [h1]
    · simp [hne, h1]
    · simp [h1]
  · split_ifs with h1 h2
    · have hnc : ¬ c < l := by linarith
      simp [hne', hnc]
    · simp [h2]
    · simp [h2]
  · intro hcu
    split_ifs with h1 h2
    · exfalso; rw [hcu] at h1; exact lt_irrefl _ h1
    · exfalso; rw [hcu] at h2; linarith
    · rfl
  · intro hcl
    split_ifs with h1 h2
    · exfalso; rw [hcl] at h1; linarith
    · exfalso; rw [hcl] at h2; exact lt_irrefl _ h2
    · rfl

/-- C2 witness: the decision characterization at the concrete two-bar
series `[1, 1]` with period 2, multiplier 2, close 0. -/
theorem strict_inequality_rule_witness :
    (0:ℝ) ≤ 2 ∧ upperAt csW 2 2 1 = some uW ∧ lowerAt csW 2 2 1 = some lW ∧
    ((signalOf (some 0) (upperAt csW 2 2 1) (lowerAt csW 2 2 1) = some bullSignal ↔ uW < 0) ∧
     (signalOf (some 0) (upperAt csW 2 2 1) (lowerAt csW 2 2 1) = some bearSignal ↔ (0:ℝ) < lW) ∧
     ((0:ℝ) = uW → signalOf (some 0) (upperAt csW 2 2 1) (lowerAt csW 2 2 1) = none) ∧
     ((0:ℝ) = lW → signalOf (some 0) (upperAt csW 2 2 1) (lowerAt csW 2 2 1) = none)) :=
  ⟨by norm_num, rfl, rfl, strict_inequality_rule csW 2 1 2 (by norm_num) 0 uW lW rfl rfl⟩

/-- C6: at every index with a full trailing window (and a configuration
period of at least 2, as the UI guarantees), the rolling standard deviation
is the sample standard deviation of the window `[i-period+1, i]` with
denominator `period - 1`, and the bands are the moving average plus/minus
the multiplier times that standard deviation. -/
theorem bands_formula (cs : List ℝ) (n i : Nat) (k : ℝ)
    (hn : 2 ≤ n) (hi : n - 1 ≤ i) (hlen : i < cs.length) :
    maAt cs n i = some (Finset.sum (Finset.range n) (fun j => cs.getD (i + 1 - n + j) 0) / (n : ℝ)) ∧
    stdAt cs n i = some (Real.sqrt (Finset.sum (Finset.range n)
        (fun j => (cs.getD (i + 1 - n + j) 0 -
          Finset.sum (Finset.range n) (fun j2 => cs.getD (i + 1 - n + j2) 0) / (n : ℝ)) ^ 2) /
      ((n : ℝ) - 1))) ∧
    upperAt cs n k i = (maAt cs n i).bind (fun m => (stdAt cs n i).map (fun s => m + k * s)) ∧
    lowerAt cs n k i = (maAt cs n i).bind (fun m => (stdAt cs n i).map (fun s => m - k * s)) := by
  have hcond : n ≤ i + 1 ∧ i < cs.length := ⟨by omega, hlen⟩
  have hwin : (i + 1 - n) + n ≤ cs.length := by omega
  have hwlen : ((cs.drop (i + 1 - n)).take n).length = n := by
    simp only [List.length_take, List.length_drop]
    omega
  have hsum := window_sum cs (i + 1 - n) n hwin
  have hmean : mean ((cs.drop (i + 1 - n)).take n) =
      Finset.sum (Finset.range n) (fun j => cs.getD (i + 1 - n + j) 0) / (n : ℝ) := by
    unfold mean
    rw [hsum, hwlen]
  refine ⟨?_, ?_, ?_, ?_⟩
  · unfold maAt
    rw [if_pos hcond, hmean]
  · unfold stdAt
    rw [if_pos ⟨hcond.1, hcond.2, hn⟩]
    unfold sampleStd
    rw [window_map_sum cs (fun x => (x - mean ((cs.drop (i + 1 - n)).take n)) ^ 2)
      (i + 1 - n) n hwin, hwlen]
    simp only [hmean]
  · cases hma : maAt cs n i <;> cases hsd : stdAt cs n i <;> simp [upperAt, hma, hsd]
  · cases hma : maAt cs n i <;> cases hsd : stdAt cs n i <;> simp [lowerAt, hma, hsd]

/-- C6 witness: the band formulas at the concrete series `[1, 2, 3]`,
period 2, index 1, multiplier 2. -/
theorem bands_formula_witness :
    2 ≤ 2 ∧ 2 - 1 ≤ 1 ∧ 1 < csC6.length ∧
    (maAt csC6 2 1 = some (Finset.sum (Finset.range 2) (fun j => csC6.getD (1 + 1 - 2 + j) 0) / (2 : ℝ)) ∧
     stdAt csC6 2 1 = some (Real.sqrt (Finset.sum (Finset.range 2)
         (fun j => (csC6.getD (1 + 1 - 2 + j) 0 -
           Finset.sum (Finset.range 2) (fun j2 => csC6.getD (1 + 1 - 2 + j2) 0) / (2 : ℝ)) ^ 2) /
       ((2 : ℝ) - 1))) ∧
     upperAt csC6 2 2 1 = (maAt csC6 2 1).bind (fun m => (stdAt csC6 2 1).map (fun s => m + 2 * s)) ∧
     lowerAt csC6 2 2 1 = (maAt csC6 2 1).bind (fun m => (stdAt csC6 2 1).map (fun s => m - 2 * s))) :=
  ⟨by decide, by decide, by decide, bands_formula csC6 2 1 2 (by decide) (by decide) (by decide)⟩

/-- C7: on a series with at least `period` bars (period at least 2, as the
UI guarantees), the moving average, standard deviation and both bands are
defined at an index exactly when the index is at least `period - 1`, and
undefined before that. -/
theorem bands_defined_iff (cs : List ℝ) (n i : Nat) (k : ℝ)
    (hn : 2 ≤ n) (_hlen : n ≤ cs.length) (hi : i < cs.length) :
    ((maAt cs n i).isSome = true ↔ n - 1 ≤ i) ∧
    ((stdAt cs n i).isSome = true ↔ n - 1 ≤ i) ∧
    ((upperAt cs n k i).isSome = true ↔ n - 1 ≤ i) ∧
    ((lowerAt cs n k i).isSome = true ↔ n - 1 ≤ i) := by
  by_cases hc : n ≤ i + 1
  · simp [maAt, stdAt, upperAt, lowerAt, hc, hi, hn]
  · simp [maAt, stdAt, upperAt, lowerAt, hc]

/-- C7 witness: the definedness boundary on the concrete series `[1, 2, 3]`
with period 2 at index 2. -/
theorem bands_defined_iff_witness :
    2 ≤ 2 ∧ 2 ≤ csC6.length ∧ 2 < csC6.length ∧
    (((maAt csC6 2 2).isSome = true ↔ 2 - 1 ≤ 2) ∧
     ((stdAt csC6 2 2).isSome = true ↔ 2 - 1 ≤ 2) ∧
     ((upperAt csC6 2 2 2).isSome = true ↔ 2 - 1 ≤ 2) ∧
     ((lowerAt csC6 2 2 2).isSome = true ↔ 2 - 1 ≤ 2)) :=
  ⟨by decide, by decide, by decide, bands_defined_iff csC6 2 2 2 (by decide) (by decide) (by decide)⟩

/-- C8: when the reference candle carries an undefined value in its close
or in either band, the analysis yields no signal — neither a breakout
classification nor an error. -/
theorem nan_reference_no_signal (symbol : String) (p : Nat) (k : ℝ) (t : RawTable)
    (hlen : ¬ t.rows.length < p + 2) (h2 : 2 ≤ (dropna t.rows).length)
    (hnan : ((dropna t.rows).get? ((dropna t.rows).length - 2)).bind (fun b => b.close) = none
        ∨ upperAt (closesOf (dropna t.rows)) p k ((dropna t.rows).length - 2) = none
        ∨ lowerAt (closesOf (dropna t.rows)) p k ((dropna t.rows).length - 2) = none) :
    analyze_stock symbol p k (some t) = Except.ok none := by
  obtain ⟨candle, hget, heq⟩ := analyze_stock_unfold symbol p k t hlen h2
  rw [heq]
  have hsig : signalOf candle.close
      (upperAt (closesOf (dropna t.rows)) p k ((dropna t.rows).length - 2))
      (lowerAt (closesOf (dropna t.rows)) p k ((dropna t.rows).length - 2)) = none := by
    rcases hnan with hc | hu | hl
    · rw [hget] at hc
      simp only [Option.some_bind] at hc
      rw [hc]
      exact signalOf_close_none _ _
    · have hl' := (upperAt_none_iff (closesOf (dropna t.rows)) p k
        ((dropna t.rows).length - 2)).mp hu
      rw [hu, hl']
      exact signalOf_bands_none _
    · have hu' := (upperAt_none_iff (closesOf (dropna t.rows)) p k
        ((dropna t.rows).length - 2)).mpr hl
      rw [hu', hl]
      exact signalOf_bands_none _
  rw [hsig]
  rfl

/-- C8 witness: a 12-row table with five NaN rows (period 10): the cleaned
series keeps 7 rows, the reference candle's bands are undefined, and the
analysis yields no signal. -/
theorem nan_reference_no_signal_witness :
    (¬ mixedTable.rows.length < 10 + 2) ∧ 2 ≤ (dropna mixedTable.rows).length ∧
    upperAt (closesOf (dropna mixedTable.rows)) 10 2 ((dropna mixedTable.rows).length - 2) = none ∧
    analyze_stock symA 10 2 (some mixedTable) = Except.ok none :=
  ⟨by decide, by decide, rfl,
    nan_reference_no_signal symA 10 2 mixedTable (by decide) (by decide) (Or.inr (Or.inl rfl))⟩

/-- A produced result always records the very symbol that was analyzed. -/
lemma analyze_stock_symbol_eq (s : String) (p : Nat) (k : ℝ) (f : Option RawTable)
    (r : ScanResult) (h : analyze_stock s p k f = Except.ok (some r)) : r.Symbol = s := by
  unfold analyze_stock at h
  repeat' split at h
  all_goals simp_all
  subst h
  rfl

/-- C9: whenever the scan loop completes, the bullish list and the bearish
list each carry their symbols in the relative order of the input universe
(each is a sublist of the input symbol list); no reordering by magnitude or
date happens. -/
theorem partition_preserves_order (symbols : List String) (fetch : String → Option RawTable)
    (p : Nat) (k : ℝ) (rs : List ScanResult) (h : runScan symbols fetch p k = Except.ok rs) :
    List.Sublist ((bullishOf rs).map (fun r => r.Symbol)) symbols ∧
    List.Sublist ((bearishOf rs).map (fun r => r.Symbol)) symbols := by
  induction symbols generalizing rs with
  | nil =>
    unfold runScan at h
    simp only [Except.ok.injEq] at h
    subst h
    simp [bullishOf, bearishOf]
  | cons s rest ih =>
    unfold runScan at h
    cases han : analyze_stock s p k (fetch s) with
    | error e =>
      rw [han] at h
      simp at h
    | ok o =>
      rw [han] at h
      cases o with
      | none =>
        obtain ⟨hbu, hbe⟩ := ih rs h
        exact ⟨hbu.cons s, hbe.cons s⟩
      | some r =>
        cases hrest : runScan rest fetch p k with
        | error e =>
          rw [hrest] at h
          simp [Except.map] at h
        | ok rs' =>
          rw [hrest] at h
          simp only [Except.map, Except.ok.injEq] at h
          subst h
          have hsym : r.Symbol = s := analyze_stock_symbol_eq s p k (fetch s) r han
          obtain ⟨hbu, hbe⟩ := ih rs' hrest
          constructor
          · by_cases hc : containsSub r.Segnale rialzista = true
            · have hcons : bullishOf (r :: rs') = r :: bullishOf rs' := by
                simp [bullishOf, List.filter_cons, hc]
              rw [hcons, List.map_cons, hsym]
              exact hbu.cons₂ s
            · have hskip : bullishOf (r :: rs') = bullishOf rs' := by
                simp [bullishOf, List.filter_cons, hc]
              rw [hskip]
              exact hbu.cons s
          · by_cases hc : containsSub r.Segnale ribassista = true
            · have hcons : bearishOf (r :: rs') = r :: bearishOf rs' := by
                simp [bearishOf, List.filter_cons, hc]
              rw [hcons, List.map_cons, hsym]
              exact hbe.cons₂ s
            · have hskip : bearishOf (r :: rs') = bearishOf rs' := by
                simp [bearishOf, List.filter_cons, hc]
              rw [hskip]
              exact hbe.cons s

/-- C9 witness: the order property at a concrete completed scan (every
fetch empty, so the scan completes with no results). -/
theorem partition_preserves_order_witness :
    runScan [symA, symB] fetchNone 10 2 = Except.ok [] ∧
    List.Sublist ((bullishOf []).map (fun r => r.Symbol)) [symA, symB] ∧
    List.Sublist ((bearishOf []).map (fun r => r.Symbol)) [symA, symB] :=
  ⟨rfl, (partition_preserves_order [symA, symB] fetchNone 10 2 [] rfl).1,
    (partition_preserves_order [symA, symB] fetchNone 10 2 [] rfl).2⟩
